import Mathlib

/-
Verification development for the localRentalPlace repository
(Kijiji rental scraper, src/scraper.py and src/Map_rent_places.py).

The Python code is shallowly embedded: parsed JSON values (the output of
json.loads) are modelled by the first-order inductive type `J`; Python
floats are modelled as exact rationals; records are the `Listing`
structure mirroring the dict built by
KijijiScraperFinal.extract_listing_from_json_ld; code that may raise an
exception returns Option/Except with `none`/`error` for the raised case.
External services (HTTP fetch, the ArcGIS and Nominatim geocoders) are
passed in as oracle functions, matching their call sites in the source.
-/

set_option autoImplicit false

namespace LocalRental

/-- A parsed JSON value as produced by Python's `json.loads`, in a
first-order encoding: arrays and objects are cons chains.  `null` also
stands for Python `None` (json.loads maps JSON null to None).  JSON
numbers are modelled as exact rationals; the int/float distinction is
collapsed into one constructor (it only affects `str()` rendering). -/
inductive J where
  | str (s : String)
  | num (q : ℚ)
  | bool (b : Bool)
  | null
  | arrNil
  | arrCons (hd tl : J)
  | objNil
  | objCons (key : String) (val tl : J)
  deriving DecidableEq

/-- Python `isinstance(v, dict)` for a parsed JSON value. -/
def J.isObj : J → Bool
  | .objNil => true
  | .objCons _ _ _ => true
  | _ => false

/-- Python `d.get(k)` / `d[k]` lookup on a dict chain.  Python dicts keep
the last binding for a duplicated key, hence the tail is preferred.
Returns `none` when the key is missing or the value is not a dict. -/
def J.objGet? : J → String → Option J
  | .objCons k v tl, key =>
      match tl.objGet? key with
      | some w => some w
      | none => if k = key then some v else none
  | _, _ => none

/-- Python truthiness (`bool(v)`) of a parsed JSON value. -/
def J.truthy : J → Bool
  | .str s => s ≠ ""
  | .num q => q ≠ 0
  | .bool b => b
  | .null => false
  | .arrNil => false
  | .arrCons _ _ => true
  | .objNil => false
  | .objCons _ _ _ => true

/-- The apostrophe character, kept out of string literals. -/
def apos : Char := Char.ofNat 39

/-- One-character apostrophe string. -/
def aposS : String := String.singleton apos

/-- Number of decimal digits needed so that `q * 10 ^ k` is integral,
searched up to 400 (Python floats are dyadic, so every value reachable
from `json.loads` terminates well inside this bound). -/
def decExp (q : ℚ) : ℕ :=
  ((List.range 400).find? (fun k => decide ((q * (10 : ℚ) ^ k).den = 1))).getD 17

/-- First `k` decimal digits of the fractional part of `r` (`0 ≤ r < 1`). -/
def fracDigits : ℕ → ℚ → String
  | 0, _ => ""
  | k + 1, r =>
      let d := (r * 10).floor
      toString d ++ fracDigits k (r * 10 - (d : ℚ))

/-- Python `str()` of a number.  Integral values render like Python ints;
fractional values render as a terminating decimal.  (Python renders a
float `5.0` as "5.0" and uses shortest-roundtrip/e-notation for floats;
this model conflates int/float rendering — no claim depends on it.) -/
def pyStrNum (q : ℚ) : String :=
  if q.den = 1 then toString q.num
  else
    (if q < 0 then "-" else "")
      ++ toString |q|.floor
      ++ "."
      ++ fracDigits (decExp q) (|q| - (|q|.floor : ℚ))

mutual

/-- Python `repr()` of a parsed JSON value (string escaping inside
`repr` of a str is not modelled; no claim depends on it). -/
def pyRepr : J → String
  | .str s => aposS ++ s ++ aposS
  | .num q => pyStrNum q
  | .bool b => cond b "True" "False"
  | .null => "None"
  | .arrNil => "[]"
  | .arrCons h t => "[" ++ pyRepr h ++ pyReprArrTail t
  | .objNil => "\x7b\x7d"
  | .objCons k v t => "\x7b" ++ aposS ++ k ++ aposS ++ ": " ++ pyRepr v ++ pyReprObjTail t

/-- Renders the tail of a Python list repr. -/
def pyReprArrTail : J → String
  | .arrCons h t => ", " ++ pyRepr h ++ pyReprArrTail t
  | _ => "]"

/-- Renders the tail of a Python dict repr. -/
def pyReprObjTail : J → String
  | .objCons k v t => ", " ++ aposS ++ k ++ aposS ++ ": " ++ pyRepr v ++ pyReprObjTail t
  | _ => "\x7d"

end

/-- Python `str()` of a parsed JSON value, as used by the f-strings in
the extractor (`f"${...}"`, `f"{k}: {v}"`). -/
def pyStr : J → String
  | .str s => s
  | v => pyRepr v

/-- Does `pre` occur as a prefix of `l`? -/
def listStartsWith : List Char → List Char → Bool
  | [], _ => true
  | _ :: _, [] => false
  | a :: as, b :: bs => a = b && listStartsWith as bs

/-- Python `needle in hay` for strings: substring containment. -/
def listContains (needle : List Char) : List Char → Bool
  | [] => needle.isEmpty
  | c :: cs => listStartsWith needle (c :: cs) || listContains needle cs

/-- Python `hay.replace(needle, repl)` for a non-empty needle
`n0 :: ns`: replace every non-overlapping occurrence, left to right.
The fuel argument (instantiated with the hay length, which bounds the
number of steps) keeps the recursion structural. -/
def pyReplaceAux (n0 : Char) (ns repl : List Char) : ℕ → List Char → List Char
  | 0, l => l
  | _ + 1, [] => []
  | fuel + 1, c :: cs =>
      if n0 = c && listStartsWith ns cs then
        repl ++ pyReplaceAux n0 ns repl fuel (cs.drop ns.length)
      else
        c :: pyReplaceAux n0 ns repl fuel cs

/-- Python `hay.replace(needle, repl)` on strings (the needles used in
the source are non-empty; an empty needle returns `hay` unchanged). -/
def pyReplace (hay needle repl : String) : String :=
  match needle.data with
  | [] => hay
  | n0 :: ns => String.mk (pyReplaceAux n0 ns repl.data hay.data.length hay.data)

/-- Python `needle in container` (the `in` operator).  `none` models the
TypeError raised when the container is a number, bool, or None. -/
def pyInB (needle : String) : J → Option Bool
  | .objNil => some false
  | .objCons k _ tl =>
      if k = needle then some true else pyInB needle tl
  | .str s => some (listContains needle.data s.data)
  | .arrNil => some false
  | .arrCons h tl =>
      if h = .str needle then some true else pyInB needle tl
  | _ => none

/-- One rental listing record, mirroring the dict returned by
`KijijiScraperFinal.extract_listing_from_json_ld`.  `latitude` and
`longitude` hold Python values; `J.null` is Python `None` (absent). -/
structure Listing where
  title : J
  url : J
  address : J
  latitude : J
  longitude : J
  price : String
  info : String
  description : J
  deriving DecidableEq

/-- Price step of the extractor (scraper.py lines 133-136):
`price = "Not available"` unless `'offers' in item_data and 'price' in
item_data['offers']`, in which case `price = f"${item_data['offers']['price']}"`.
`none` models an exception (TypeError from `in` on a non-container, or
from subscripting a str/list with a string key), which the enclosing
`except Exception` turns into a `None` return. -/
def extractPrice (item : J) : Option String :=
  match item.objGet? "offers" with
  | none => some "Not available"
  | some off =>
      match pyInB "price" off with
      | none => none
      | some false => some "Not available"
      | some true =>
          match off.objGet? "price" with
          | some pv => some ("$" ++ pyStr pv)
          | none => none

/-- Address step of the extractor (scraper.py lines 138-141):
`address = item_data.get('address', 'No address')`, then if the value is
a dict, `address.get('streetAddress', 'No address')`. -/
def extractAddress (item : J) : J :=
  let a := (item.objGet? "address").getD (.str "No address")
  if a.isObj then (a.objGet? "streetAddress").getD (.str "No address") else a

/-- Geo step of the extractor (scraper.py lines 143-149): `latitude` and
`longitude` start as None and are looked up independently with
`geo.get(...)` when `'geo' in item_data`.  `none` models the
AttributeError raised by `.get` when the geo value is not a dict. -/
def extractGeo (item : J) : Option (J × J) :=
  match item.objGet? "geo" with
  | none => some (.null, .null)
  | some g =>
      if g.isObj then
        some ((g.objGet? "latitude").getD .null, (g.objGet? "longitude").getD .null)
      else none

/-- Floor-size attribute (scraper.py line 157):
`if 'floorSize' in item_data and 'value' in item_data['floorSize']`.
Outer `none` = exception; inner `none` = attribute not added. -/
def extractSizeAttr (item : J) : Option (Option String) :=
  match item.objGet? "floorSize" with
  | none => some none
  | some fs =>
      match pyInB "value" fs with
      | none => none
      | some false => some none
      | some true =>
          match fs.objGet? "value" with
          | some v => some (some (pyStr v))
          | none => none

/-- A single `attributes[k] = str(v)` entry, present when the source key
was present. -/
def optAttr (k : String) (v? : Option J) : List (String × String) :=
  match v? with
  | some v => [(k, pyStr v)]
  | none => []

/-- The floor-size entry of the attribute dict. -/
def szPart (sz : Option String) : List (String × String) :=
  match sz with
  | some s => [("Size (sq ft)", s)]
  | none => []

/-- The pets entry of the attribute dict (scraper.py lines 159-160):
`'Yes' if item_data['petsAllowed'] == 'true' else 'No'`.  Python `==`
between a parsed JSON value and the string `'true'` holds exactly when
the value is that string. -/
def petsPart (v? : Option J) : List (String × String) :=
  match v? with
  | some v => [("Pets Allowed", if v = J.str "true" then "Yes" else "No")]
  | none => []

/-- Attribute dict of the extractor (scraper.py lines 151-163), as the
insertion-ordered key/value list. -/
def extractAttrs (item : J) : Option (List (String × String)) :=
  (extractSizeAttr item).bind fun sz =>
    some
      (optAttr "Bedrooms" (item.objGet? "numberOfBedrooms")
      ++ optAttr "Bathrooms" (item.objGet? "numberOfBathroomsTotal")
      ++ szPart sz
      ++ petsPart (item.objGet? "petsAllowed")
      ++ optAttr "Lease Length" (item.objGet? "leaseLength"))

/-- Formats the attribute list as the source does:
`" *** ".join([f"{k}: {v}" for k, v in attributes.items()])`. -/
def joinAttrs (attrs : List (String × String)) : String :=
  String.intercalate " *** " (attrs.map fun kv => kv.1 ++ ": " ++ kv.2)

/-- `KijijiScraperFinal.extract_listing_from_json_ld` (scraper.py lines
125-180).  Returns `none` exactly when the Python function returns
`None`, i.e. when any step raises and the `except Exception` fires; in
particular when `item` is not a dict (every `.get` would raise). -/
def extract_listing_from_json_ld (item : J) : Option Listing :=
  if item.isObj then
    (extractPrice item).bind fun price =>
    (extractGeo item).bind fun geo =>
    (extractAttrs item).bind fun attrs =>
    some
      { title := (item.objGet? "name").getD (.str "No title")
        url := (item.objGet? "url").getD (.str "")
        address := extractAddress item
        latitude := geo.1
        longitude := geo.2
        price := price
        info := joinAttrs attrs
        description := (item.objGet? "description").getD (.str "No description") }
  else none

/-- Exceptions that can escape a statement of the search-page loop. -/
inductive PyExc where
  | typeError
  | keyError
  | jsonDecodeError
  deriving DecidableEq

/-- One `<script type="application/ld+json">` tag of a search page, by
what `json.loads(script.string)` does to it: `noString` is a tag whose
`.string` is None (json.loads then raises TypeError), `unparsable` is
text rejected with a JSONDecodeError, `parsed v` is text parsing to `v`. -/
inductive ScriptBlock where
  | noString
  | unparsable
  | parsed (v : J)
  deriving DecidableEq

/-- Python iteration `for item in x` over a parsed JSON value: lists
yield their elements, strings their characters, dicts their keys;
numbers, bools and None raise TypeError (`none`). -/
def pyIter : J → Option (List J)
  | .arrNil => some []
  | .arrCons h tl => (pyIter tl).map (h :: ·)
  | .str s => some (s.data.map fun c => .str (String.singleton c))
  | .objNil => some []
  | .objCons k _ tl => (pyIter tl).map (J.str k :: ·)
  | _ => none

/-- Body of the inner loop of
`KijijiScraperFinal.extract_listings_from_search_page` (scraper.py lines
114-118): `if 'item' in item:` then extract from `item['item']`.
TypeError is raised by `in` on a number/bool/None and by subscripting a
str or list with the string key `'item'`. -/
def processItem (it : J) : Except PyExc (Option Listing) :=
  match pyInB "item" it with
  | none => .error .typeError
  | some false => .ok none
  | some true =>
      match it.objGet? "item" with
      | some v => .ok (extract_listing_from_json_ld v)
      | none => .error .typeError

/-- Runs `processItem` over the elements of `itemListElement`, keeping
the records appended before any exception (appends made inside the
`try` survive).  Returns the appended records and the exception, if one
was raised. -/
def runItems : List J → List Listing × Option PyExc
  | [] => ([], none)
  | it :: rest =>
      match processItem it with
      | .error e => ([], some e)
      | .ok none => runItems rest
      | .ok (some l) =>
          let (ls, e) := runItems rest
          (l :: ls, e)

/-- Processes one script block (the body of the `try` in scraper.py
lines 110-120): records appended by the block, plus the exception it
raised, if any. -/
def processBlock : ScriptBlock → List Listing × Option PyExc
  | .noString => ([], some .typeError)
  | .unparsable => ([], some .jsonDecodeError)
  | .parsed v =>
      if v.isObj && (v.objGet? "itemListElement").isSome then
        match pyIter ((v.objGet? "itemListElement").getD .null) with
        | none => ([], some .typeError)
        | some items => runItems items
      else ([], none)

/-- `KijijiScraperFinal.extract_listings_from_search_page` restricted to
its parsing loop (scraper.py lines 110-123), over the page's script
blocks.  The `except (json.JSONDecodeError, KeyError)` catches only
those two exceptions and continues with the next block; a TypeError
propagates and aborts the whole function (`.error`). -/
def extract_listings_from_search_page : List ScriptBlock → Except PyExc (List Listing)
  | [] => .ok []
  | b :: rest =>
      let (ls, e) := processBlock b
      match e with
      | some .typeError => .error .typeError
      | _ =>
          match extract_listings_from_search_page rest with
          | .ok more => .ok (ls ++ more)
          | .error e => .error e

/-- `KijijiScraperFinal.geocode_address` (scraper.py lines 71-94),
with the two providers as oracles.  `arc address = none` models the
ArcGIS call raising or returning None (either way the `print` on the
None result raises and control falls into the Nominatim branch, which
geocodes the fixed city-level query, not the record's address).
A non-string address raises AttributeError at `.replace`, also landing
in the Nominatim branch.  Returns `none` for Python `(None, None)`. -/
def geocode_address (arc : String → Option (ℚ × ℚ)) (nomStJohns : Option (ℚ × ℚ))
    (address : J) : Option (ℚ × ℚ) :=
  if !address.truthy || address = .str "No address" then none
  else
    match address with
    | .str s =>
        let clean := pyReplace (pyReplace s "&apos;" aposS) "&amp;" "&"
        match arc clean with
        | some p => some p
        | none => nomStJohns
    | _ => nomStJohns

/-- One iteration of the geocoding loop in
`KijijiScraperFinal.scrape_kijiji_rentals` (scraper.py lines 221-229):
a record is re-geocoded when `not listing['latitude'] or not
listing['longitude']` (Python truthiness), and the result is stored only
when `lat and lon` are both truthy.  The Bool reports whether
`geocoded_count` was incremented. -/
def geocodeStep (arc : String → Option (ℚ × ℚ)) (nomStJohns : Option (ℚ × ℚ))
    (r : Listing) : Listing × Bool :=
  if !r.latitude.truthy || !r.longitude.truthy then
    match geocode_address arc nomStJohns r.address with
    | some (la, lo) =>
        if la ≠ 0 ∧ lo ≠ 0 then
          ({ r with latitude := .num la, longitude := .num lo }, true)
        else (r, false)
    | none => (r, false)
  else (r, false)

/-- The geocoding loop over all listings, returning the updated list and
the final `geocoded_count`. -/
def geocodePass (arc : String → Option (ℚ × ℚ)) (nomStJohns : Option (ℚ × ℚ)) :
    List Listing → List Listing × ℕ
  | [] => ([], 0)
  | r :: rs =>
      let (r', b) := geocodeStep arc nomStJohns r
      let (rs', n) := geocodePass arc nomStJohns rs
      (r' :: rs', (if b then 1 else 0) + n)

/-- The fixed demonstration coordinates of scraper.py lines 235-239. -/
def sample_coords : List (ℚ × ℚ) :=
  [(47.5669, -52.7067), (47.5700, -52.7100), (47.5600, -52.7000),
   (47.5750, -52.7200), (47.5500, -52.6800), (47.5800, -52.7300),
   (47.5400, -52.6500), (47.5900, -52.7500)]

/-- One iteration of the sample-coordinate fallback (scraper.py lines
240-245): listing `i` of the first-20 slice gets
`sample_coords[i % len(sample_coords)]` when a coordinate is falsy. -/
def sampleStep (i : ℕ) (r : Listing) : Listing :=
  if !r.latitude.truthy || !r.longitude.truthy then
    let c := sample_coords.getD (i % sample_coords.length) (0, 0)
    { r with latitude := .num c.1, longitude := .num c.2 }
  else r

/-- The sample-coordinate fallback over `all_listings[:20]`: the loop
mutates the first twenty listing dicts in place, so listing `i` of the
result is `sampleStep i` of the original when `i < 20` and unchanged
otherwise.  The counter `k` is the index of the first element. -/
def samplePassAux (k : ℕ) : List Listing → List Listing
  | [] => []
  | r :: rs => (if k < 20 then sampleStep k r else r) :: samplePassAux (k + 1) rs

/-- The sample-coordinate fallback over `all_listings[:20]`
(scraper.py lines 232-245). -/
def samplePass (ls : List Listing) : List Listing :=
  samplePassAux 0 ls

/-- The whole geocoding section of `scrape_kijiji_rentals` (scraper.py
lines 218-245, with `enable_geocoding=True`): run the geocoding loop,
and when `geocoded_count == 0` apply the sample-coordinate fallback. -/
def geocodePhase (arc : String → Option (ℚ × ℚ)) (nomStJohns : Option (ℚ × ℚ))
    (ls : List Listing) : List Listing :=
  let p := geocodePass arc nomStJohns ls
  if p.2 = 0 then samplePass p.1 else p.1

/-- First-occurrence deduplication keyed by `key`: models pandas
`DataFrame.drop_duplicates(subset=[...])` with its default
`keep='first'`, which keeps, in input order, the first row of each key
group. -/
def dedupFirst {α : Type} {κ : Type} [DecidableEq κ] (key : α → κ) : List α → List α
  | [] => []
  | x :: xs => x :: dedupFirst key (xs.filter fun y => decide (key y ≠ key x))
  termination_by l => l.length
  decreasing_by
    simp only [List.length_cons]
    exact Nat.lt_succ_of_le (List.length_filter_le _ _)

/-- The deduplication step of `KijijiScraperFinal.save_to_csv`
(scraper.py line 684): `df.drop_duplicates(subset=['url'])`. -/
def save_to_csv_dedup (ls : List Listing) : List Listing :=
  dedupFirst Listing.url ls

/-- One row of the legacy Map_rent_places.py dataframe (lines 35-41):
five per-field files zipped by position. -/
structure MapRow where
  houseLocation : ℚ × ℚ
  priceList : String
  hrefList : String
  roomNumber : String
  titleList : String
  deriving DecidableEq

/-- The deduplication step of Map_rent_places.py line 43:
`df.drop_duplicates("hrefList")`. -/
def map_rent_dedup (rows : List MapRow) : List MapRow :=
  dedupFirst MapRow.hrefList rows

/-- The inner pagination loop of `scrape_kijiji_rentals` (scraper.py
lines 206-213) over a given list of page numbers: fetch each page in
order, stop (after the fetch) at the first page yielding no records.
Returns the collected records and the page numbers actually fetched. -/
def crawlLoop (fetch : ℕ → List Listing) : List ℕ → List Listing × List ℕ
  | [] => ([], [])
  | p :: ps =>
      let ls := fetch p
      if ls.isEmpty then ([], [p])
      else
        let (r, qs) := crawlLoop fetch ps
        (ls ++ r, p :: qs)

/-- The per-source pagination driver of `scrape_kijiji_rentals`
(scraper.py lines 198-213): page 1 is always fetched (its result is
extended unconditionally, with no emptiness check), then pages
`2 .. min maxPages cap` are fetched by `crawlLoop`.  `fetch p` returns
what `extract_listings_from_search_page` yields for page `p` (a failed
HTTP fetch also yields `[]`).  Returns the accumulated records and the
fetched page numbers. -/
def crawlPages (fetch : ℕ → List Listing) (maxPages cap : ℕ) : List Listing × List ℕ :=
  let first := fetch 1
  let m := min maxPages cap
  let rest := crawlLoop fetch (List.range' 2 (m - 1))
  (first ++ rest.1, 1 :: rest.2)

/-- A character kept by `re.sub(r'[^\d.]', '', price)`: an ASCII digit
or a dot (the regex class `\d` also matches non-ASCII Unicode digits,
which this model omits; no claim depends on them). -/
def isPriceChar (c : Char) : Bool := c.isDigit || c = '.'

/-- `re.sub(r'[^\d.]', '', s)` (scraper.py lines 450, 276). -/
def stripNonNumeric (s : String) : List Char := s.data.filter isPriceChar

/-- Splits a character list at every dot, like `s.split('.')`. -/
def splitDots : List Char → List (List Char)
  | [] => [[]]
  | c :: cs =>
      if c = '.' then [] :: splitDots cs
      else
        match splitDots cs with
        | [] => [[c]]
        | p :: ps => (c :: p) :: ps

/-- Numeric value of a list of decimal digit characters. -/
def digitsVal (l : List Char) : ℕ :=
  l.foldl (fun a c => a * 10 + (c.toNat - 48)) 0

/-- Python `float()` on a string of digits and dots only (the output of
`re.sub(r'[^\d.]', '', ...)`): accepted exactly when the string is
non-empty, has at most one dot, and has at least one digit
(`float('.')` and `float('')` raise ValueError, `float('5.')` and
`float('.5')` succeed); the value is the usual decimal reading.  Very
large results overflow a Python float to `inf`; this model keeps the
exact rational. -/
def parseDigitsDot (l : List Char) : Option ℚ :=
  match splitDots l with
  | [a] => if a.isEmpty then none else some (digitsVal a : ℚ)
  | [a, b] =>
      if a.isEmpty && b.isEmpty then none
      else some ((digitsVal a : ℚ) + (digitsVal b : ℚ) / (10 : ℚ) ^ b.length)
  | _ => none

/-- The price coercion of `get_marker_color` (scraper.py line 450):
`float(re.sub(r'[^\d.]', '', price))`, defined on the string case. -/
def coercePrice (s : String) : Option ℚ :=
  parseDigitsDot (stripNonNumeric s)

/-- `get_marker_color` (scraper.py lines 448-458, and the identical
inline logic at lines 275-284): green under 800, orange under 1200, red
otherwise, blue when the coercion raises (ValueError on an unparsable
string, TypeError on a non-string). -/
def get_marker_color (price : J) : String :=
  match price with
  | .str s =>
      match coercePrice s with
      | some q => if q < 800 then "green" else if q < 1200 then "orange" else "red"
      | none => "blue"
  | _ => "blue"

/-- A Python float value: a finite rational, an infinity, or NaN. -/
inductive PyF where
  | fin (q : ℚ)
  | inf
  | ninf
  | nan
  deriving DecidableEq

/-- Python `f < c` for a float `f` and a finite bound `c`. -/
def PyF.ltc : PyF → ℚ → Bool
  | .fin q, c => q < c
  | .inf, _ => false
  | .ninf, _ => true
  | .nan, _ => false

/-- Python `c <= f` for a float `f` and a finite bound `c`. -/
def PyF.gec : PyF → ℚ → Bool
  | .fin q, c => c ≤ q
  | .inf, _ => true
  | .ninf, _ => false
  | .nan, _ => false

/-- Negation of a Python float. -/
def PyF.neg : PyF → PyF
  | .fin q => .fin (-q)
  | .inf => .ninf
  | .ninf => .inf
  | .nan => .nan

/-- Case-insensitive comparison of a character list with a keyword. -/
def lowerIs (l : List Char) (w : String) : Bool :=
  l.map Char.toLower = w.data

/-- Splits a mantissa at the first `e`/`E`, returning the mantissa
characters and, when an exponent marker is present, the characters
after it. -/
def splitExp : List Char → List Char × Option (List Char)
  | [] => ([], none)
  | c :: cs =>
      if c = 'e' || c = 'E' then ([], some cs)
      else
        let (m, e) := splitExp cs
        (c :: m, e)

/-- Parses an optional sign followed by a non-empty digit string, as the
exponent part of a float literal. -/
def parseExpPart (l : List Char) : Option ℤ :=
  match l with
  | '+' :: ds => if ds ≠ [] && ds.all Char.isDigit then some (digitsVal ds : ℤ) else none
  | '-' :: ds => if ds ≠ [] && ds.all Char.isDigit then some (-(digitsVal ds : ℤ)) else none
  | ds => if ds ≠ [] && ds.all Char.isDigit then some (digitsVal ds : ℤ) else none

/-- Parses an unsigned float literal body: `digits[.digits][e[sign]digits]`
with at least one mantissa digit, or the keywords inf/infinity/nan. -/
def pyFloatMag (l : List Char) : Option PyF :=
  if lowerIs l "inf" || lowerIs l "infinity" then some .inf
  else if lowerIs l "nan" then some .nan
  else
    let (mant, ex) := splitExp l
    (parseDigitsDot mant).bind fun m =>
      if mant.all isPriceChar then
        match ex with
        | none => some (.fin m)
        | some e => (parseExpPart e).map fun z => .fin (m * (10 : ℚ) ^ z)
      else none

/-- Python `float(s)` on an arbitrary string: strip surrounding
whitespace, take an optional sign, then an unsigned literal or
inf/infinity/nan.  `none` is a ValueError.  (Underscores between digits,
legal since Python 3.6, are not modelled; no claim depends on them.) -/
def pyFloat (s : String) : Option PyF :=
  let l := (s.trim).data
  match l with
  | '+' :: rest => pyFloatMag rest
  | '-' :: rest => (pyFloatMag rest).map PyF.neg
  | rest => pyFloatMag rest

/-- `color_selector` of Map_rent_places.py (lines 61-71):
`float(price.replace("$", "").replace(",", ""))`, green under 600,
orange in `600 <= price < 1000`, red otherwise; the bare `except`
catches everything (ValueError on an unparsable string, AttributeError
on a non-string) and yields blue. -/
def color_selector (price : J) : String :=
  match price with
  | .str s =>
      let cleaned := pyReplace (pyReplace s "$" "") "," ""
      match pyFloat cleaned with
      | some f =>
          if f.ltc 600 then "green"
          else if f.gec 600 && f.ltc 1000 then "orange"
          else "red"
      | none => "blue"
  | _ => "blue"

/-- A decimal numeral: digit characters of the integer part and of the
fractional part.  This is the rendered form of a coerced price. -/
structure Dec where
  ip : List Char
  fp : List Char
  deriving DecidableEq

/-- Well-formedness of a decimal numeral: both parts are digits and at
least one digit exists. -/
def Dec.Wf (d : Dec) : Prop :=
  d.ip.all Char.isDigit ∧ d.fp.all Char.isDigit ∧ (d.ip ≠ [] ∨ d.fp ≠ [])

/-- Numeric value of a decimal numeral. -/
def Dec.val (d : Dec) : ℚ :=
  (digitsVal d.ip : ℚ) + (digitsVal d.fp : ℚ) / (10 : ℚ) ^ d.fp.length

/-- Decimal rendering of a numeral, `ip.fp`. -/
def Dec.render (d : Dec) : String :=
  String.mk (d.ip ++ '.' :: d.fp)

/-- Does the item carry a `geo` object supplying exactly one of the two
coordinates (counting an explicit JSON null as not supplied, as the
extractor does)? -/
def geoOneSided (item : J) : Bool :=
  match item.objGet? "geo" with
  | some g =>
      decide ((g.objGet? "latitude").getD J.null = J.null)
        != decide ((g.objGet? "longitude").getD J.null = J.null)
  | none => false

/-- Is this a well-formed dict chain, as every dict produced by
`json.loads` is (a run of `objCons` ending in `objNil`)? -/
def isObjChain : J → Bool
  | .objNil => true
  | .objCons _ _ tl => isObjChain tl
  | _ => false

/-- Is every element of this parsed JSON array a (well-formed) object?
(False on non-arrays.) -/
def itemsAllObj : J → Bool
  | .arrNil => true
  | .arrCons h t => isObjChain h && itemsAllObj t
  | _ => false

/-- A script block that cannot raise an uncaught exception in the
search-page loop: unparsable text only raises the caught JSONDecodeError,
and a parsed block is safe when it either is not a dict carrying
`itemListElement`, or that value is an array of objects. -/
def blockSafe : ScriptBlock → Bool
  | .noString => false
  | .unparsable => true
  | .parsed v =>
      if v.isObj && (v.objGet? "itemListElement").isSome then
        itemsAllObj ((v.objGet? "itemListElement").getD .null)
      else true

/-- Fixture: a JSON-LD item whose geo object supplies only a latitude. -/
def itemGeoPartial : J :=
  .objCons "geo" (.objCons "latitude" (.num 47) .objNil) .objNil

/-- Fixture: a geocoder oracle knowing only the address "A st". -/
def arcOnlyA : String → Option (ℚ × ℚ) :=
  fun s => if s = "A st" then some (2, 3) else none

/-- Fixture: a geocoder oracle that always fails. -/
def arcNone : String → Option (ℚ × ℚ) := fun _ => none

/-- Fixture: a record with no coordinates whose address geocodes under
`arcOnlyA`. -/
def recOKGeo : Listing :=
  ⟨.null, .str "ok", .str "A st", .null, .null, "Not available", "", .null⟩

/-- Fixture: a record with no coordinates whose address fails to geocode
under every oracle used here. -/
def recFailGeo : Listing :=
  ⟨.null, .str "b", .str "10 Main St", .null, .null, "Not available", "", .null⟩

/-- Fixture: a record whose coordinates are both set, the latitude to
the falsy value 0. -/
def recZeroLat : Listing :=
  ⟨.null, .str "z", .str "A st", .num 0, .num 10, "Not available", "", .null⟩

/-- Fixture: a record whose coordinates are both set and truthy. -/
def recBothSet : Listing :=
  ⟨.null, .str "w", .str "A st", .num 5, .num 6, "Not available", "", .null⟩

/-- Fixture: a well-formed JSON-LD list item wrapping one listing. -/
def goodItem : J :=
  .objCons "item" (.objCons "url" (.str "https://x") .objNil) .objNil

/-- Fixture: a well-formed structured-data block with one list item. -/
def goodBlock : ScriptBlock :=
  .parsed (.objCons "itemListElement" (.arrCons goodItem .arrNil) .objNil)

/-- Fixture: the record `goodItem` extracts to. -/
def goodRec : Listing :=
  ⟨.str "No title", .str "https://x", .str "No address", .null, .null,
    "Not available", "", .str "No description"⟩

/-- Fixture: a fetch oracle whose every page is empty. -/
def emptyFetch : ℕ → List Listing := fun _ => []

/-- Fixture: a JSON-LD item carrying only a url. -/
def itemUrlA : J := .objCons "url" (.str "https://a") .objNil

/-- Fixture: the record `itemUrlA` extracts to. -/
def recUrlA : Listing :=
  ⟨.str "No title", .str "https://a", .str "No address", .null, .null,
    "Not available", "", .str "No description"⟩

/-- Fixture: a JSON-LD item whose geo object supplies both coordinates. -/
def itemGeoBoth : J :=
  .objCons "geo"
    (.objCons "latitude" (.num 47) (.objCons "longitude" (.num (-52 : ℚ)) .objNil))
    .objNil

/-- Fixture: the record `itemGeoBoth` extracts to. -/
def recGeoBoth : Listing :=
  ⟨.str "No title", .str "", .str "No address", .num 47, .num (-52 : ℚ),
    "Not available", "", .str "No description"⟩

section DedupLemmas

variable {α κ : Type} [DecidableEq κ]

theorem dedupFirst_cons (key : α → κ) (x : α) (xs : List α) :
    dedupFirst key (x :: xs)
      = x :: dedupFirst key (xs.filter fun y => decide (key y ≠ key x)) := by
  rw [dedupFirst]

theorem dedupFirst_sublist (key : α → κ) (l : List α) :
    List.Sublist (dedupFirst key l) l := by
  suffices hgen : ∀ n (l : List α), l.length = n → List.Sublist (dedupFirst key l) l from
    hgen l.length l rfl
  intro n
  induction n using Nat.strong_induction_on with
  | h n ih =>
    intro l hl
    cases l with
    | nil => simp [dedupFirst]
    | cons x xs =>
      rw [dedupFirst_cons]
      refine List.Sublist.cons₂ x ?_
      have h1 : (xs.filter fun y => decide (key y ≠ key x)).length < n := by
        have := List.length_filter_le (fun y => decide (key y ≠ key x)) xs
        simp only [List.length_cons] at hl
        omega
      exact (ih _ h1 _ rfl).trans (List.filter_sublist xs)

theorem find?_filter_of_imp {p q : α → Bool} (h : ∀ y, p y = true → q y = true) :
    ∀ l : List α, (l.filter q).find? p = l.find? p := by
  intro l
  induction l with
  | nil => simp
  | cons y ys ih =>
    by_cases hq : q y = true
    · by_cases hp : p y = true
      · simp [List.filter_cons, hq, List.find?_cons_of_pos, hp]
      · have hp' : p y = false := by simpa using hp
        simp [List.filter_cons, hq, List.find?_cons_of_neg, hp', ih]
    · have hp' : p y = false := by
        cases hpy : p y
        · rfl
        · exact absurd (h y hpy) hq
      simp [List.filter_cons, hq, List.find?_cons_of_neg, hp', ih]

theorem dedupFirst_find? (key : α → κ) (l : List α) :
    ∀ r ∈ dedupFirst key l, l.find? (fun x => key x == key r) = some r := by
  suffices hgen : ∀ n (l : List α), l.length = n →
      ∀ r ∈ dedupFirst key l, l.find? (fun x => key x == key r) = some r from
    hgen l.length l rfl
  intro n
  induction n using Nat.strong_induction_on with
  | h n ih =>
    intro l hl
    cases l with
    | nil => simp [dedupFirst]
    | cons x xs =>
      intro r hr
      rw [dedupFirst_cons] at hr
      rcases List.mem_cons.mp hr with rfl | hr'
      · exact List.find?_cons_of_pos _ (by simp)
      · have hrfil : r ∈ xs.filter fun y => decide (key y ≠ key x) :=
          (dedupFirst_sublist key _).subset hr'
        have hrne : key r ≠ key x := by
          have := (List.mem_filter.mp hrfil).2
          simpa using this
        have hlen : (xs.filter fun y => decide (key y ≠ key x)).length < n := by
          have := List.length_filter_le (fun y => decide (key y ≠ key x)) xs
          simp only [List.length_cons] at hl
          omega
        have hIH := ih _ hlen _ rfl r hr'
        rw [List.find?_cons_of_neg _ (by
          simp only [beq_iff_eq]
          exact fun h => hrne h.symm)]
        rw [← find?_filter_of_imp (p := fun y => key y == key r)
          (q := fun y => decide (key y ≠ key x)) ?_ xs]
        · exact hIH
        · intro y hy
          have : key y = key r := by simpa using hy
          simp [this, hrne]

theorem toFinset_map_filter_ne (key : α → κ) (xs : List α) (x : α) :
    ((xs.filter fun y => decide (key y ≠ key x)).map key).toFinset
      = (xs.map key).toFinset.erase (key x) := by
  ext a
  simp only [List.mem_toFinset, List.mem_map, List.mem_filter, Finset.mem_erase,
    decide_eq_true_eq]
  constructor
  · rintro ⟨y, ⟨hy, hne⟩, rfl⟩
    exact ⟨hne, y, hy, rfl⟩
  · rintro ⟨hne, y, hy, rfl⟩
    exact ⟨y, ⟨hy, hne⟩, rfl⟩

theorem dedupFirst_length (key : α → κ) (l : List α) :
    (dedupFirst key l).length = (l.map key).toFinset.card := by
  suffices hgen : ∀ n (l : List α), l.length = n →
      (dedupFirst key l).length = (l.map key).toFinset.card from
    hgen l.length l rfl
  intro n
  induction n using Nat.strong_induction_on with
  | h n ih =>
    intro l hl
    cases l with
    | nil => simp [dedupFirst]
    | cons x xs =>
      rw [dedupFirst_cons]
      have hlen : (xs.filter fun y => decide (key y ≠ key x)).length < n := by
        have := List.length_filter_le (fun y => decide (key y ≠ key x)) xs
        simp only [List.length_cons] at hl
        omega
      have hIH := ih _ hlen _ rfl
      rw [List.length_cons, hIH, toFinset_map_filter_ne key xs x]
      simp only [List.map_cons, List.toFinset_cons]
      by_cases hx : key x ∈ (xs.map key).toFinset
      · rw [Finset.insert_eq_self.mpr hx, Finset.card_erase_of_mem hx]
        have : 0 < (xs.map key).toFinset.card := Finset.card_pos.mpr ⟨_, hx⟩
        omega
      · rw [Finset.erase_eq_of_not_mem hx, Finset.card_insert_of_not_mem hx]

end DedupLemmas

/-- C1: for every input list of listing records, the deduplication step
(`save_to_csv`'s `drop_duplicates` on url, and `Map_rent_places`'
`drop_duplicates` on hrefList) outputs exactly as many records as there
are distinct key values, each output record is the first occurrence of
its key in the input, and the output is a sublist of the input, so
first-seen order is preserved. -/
theorem c1_dedup_first_seen (ls : List Listing) (rows : List MapRow) :
    (save_to_csv_dedup ls).length = (ls.map Listing.url).toFinset.card
    ∧ (∀ r ∈ save_to_csv_dedup ls, ls.find? (fun x => x.url == r.url) = some r)
    ∧ List.Sublist (save_to_csv_dedup ls) ls
    ∧ (map_rent_dedup rows).length = (rows.map MapRow.hrefList).toFinset.card
    ∧ (∀ w ∈ map_rent_dedup rows,
        rows.find? (fun x => x.hrefList == w.hrefList) = some w)
    ∧ List.Sublist (map_rent_dedup rows) rows :=
  ⟨dedupFirst_length Listing.url ls, dedupFirst_find? Listing.url ls,
    dedupFirst_sublist Listing.url ls, dedupFirst_length MapRow.hrefList rows,
    dedupFirst_find? MapRow.hrefList rows, dedupFirst_sublist MapRow.hrefList rows⟩

section ExtractLemmas

theorem mem_optAttr_fst {k : String} {v? : Option J} {p : String × String}
    (hp : p ∈ optAttr k v?) : p.1 = k := by
  cases v? with
  | none => simp [optAttr] at hp
  | some v => simp [optAttr] at hp; simp [hp]

theorem mem_szPart_fst {sz : Option String} {p : String × String}
    (hp : p ∈ szPart sz) : p.1 = "Size (sq ft)" := by
  cases sz with
  | none => simp [szPart] at hp
  | some s => simp [szPart] at hp; simp [hp]

theorem pets_mem_iff (item : J) (sz : Option String) (w : String) (v : J) :
    (("Pets Allowed", w) ∈
        optAttr "Bedrooms" (item.objGet? "numberOfBedrooms")
        ++ optAttr "Bathrooms" (item.objGet? "numberOfBathroomsTotal")
        ++ szPart sz
        ++ petsPart (some v)
        ++ optAttr "Lease Length" (item.objGet? "leaseLength"))
      ↔ w = (if v = J.str "true" then "Yes" else "No") := by
  simp only [List.mem_append]
  constructor
  · rintro ((((h | h) | h) | h) | h)
    · exact absurd (mem_optAttr_fst h) (by simp)
    · exact absurd (mem_optAttr_fst h) (by simp)
    · exact absurd (mem_szPart_fst h) (by simp)
    · simpa [petsPart] using h
    · exact absurd (mem_optAttr_fst h) (by simp)
  · intro hw
    refine Or.inl (Or.inr ?_)
    simp [petsPart, hw]

/-- Field equations for a successful extraction: the url is the item's
`url` value (default empty string) and the coordinates come from
`extractGeo`. -/
theorem extract_eq (item : J) (r : Listing)
    (h : extract_listing_from_json_ld item = some r) :
    r.url = (item.objGet? "url").getD (J.str "")
    ∧ ∃ geo, extractGeo item = some geo ∧ r.latitude = geo.1 ∧ r.longitude = geo.2 := by
  unfold extract_listing_from_json_ld at h
  by_cases hobj : item.isObj
  · rw [if_pos hobj] at h
    cases hp : extractPrice item with
    | none => rw [hp] at h; simp at h
    | some p =>
      rw [hp] at h
      cases hg : extractGeo item with
      | none => rw [hg] at h; simp at h
      | some geo =>
        rw [hg] at h
        cases hat : extractAttrs item with
        | none => rw [hat] at h; simp at h
        | some attrs =>
          rw [hat] at h
          simp only [Option.some_bind'] at h
          injection h with h
          subst h
          exact ⟨rfl, geo, rfl, rfl, rfl⟩
  · rw [if_neg hobj] at h
    exact absurd h (by simp)

end ExtractLemmas

/-- C10: in extraction, the `Pets Allowed` attribute is `Yes` exactly
when the JSON-LD `petsAllowed` value is the string `true`; every other
present value (the JSON boolean true, `True`, `yes`, ...) yields `No`. -/
theorem c10_pets_exact_string (item v : J) (attrs : List (String × String))
    (ha : extractAttrs item = some attrs) (hv : item.objGet? "petsAllowed" = some v) :
    (("Pets Allowed", "Yes") ∈ attrs ↔ v = J.str "true")
    ∧ (("Pets Allowed", "No") ∈ attrs ↔ v ≠ J.str "true") := by
  unfold extractAttrs at ha
  cases hsz : extractSizeAttr item with
  | none => rw [hsz] at ha; simp at ha
  | some sz =>
    rw [hsz] at ha
    simp only [Option.some_bind'] at ha
    injection ha with ha
    subst ha
    rw [hv]
    constructor
    · rw [pets_mem_iff]
      by_cases hvt : v = J.str "true" <;> simp [hvt]
    · rw [pets_mem_iff]
      by_cases hvt : v = J.str "true" <;> simp [hvt]

/-- Witness for C10 at the JSON boolean value true: the pets attribute
comes out as `No`, and `Yes` would have required the string `true`. -/
theorem c10_witness :
    (("Pets Allowed", "Yes") ∈ [("Pets Allowed", "No")] ↔ J.bool true = J.str "true")
    ∧ (("Pets Allowed", "No") ∈ [("Pets Allowed", "No")] ↔ J.bool true ≠ J.str "true") :=
  c10_pets_exact_string (.objCons "petsAllowed" (.bool true) .objNil) (.bool true)
    [("Pets Allowed", "No")] (by decide) (by decide)

/-- C3 as stated is false: the extractor defaults a missing `url` key to
the empty string, so the empty JSON-LD item yields a record whose url is
the empty string. -/
theorem c3_counterexample :
    (extract_listing_from_json_ld J.objNil).map Listing.url = some (J.str "") := by
  decide

/-- C3 amended: every extracted record's url equals the item's `url`
value when present and the empty string otherwise; in particular an item
supplying a non-empty url string yields a record with that non-empty
url. -/
theorem c3_url_from_item (item : J) (r : Listing)
    (h : extract_listing_from_json_ld item = some r) :
    r.url = (item.objGet? "url").getD (J.str "")
    ∧ ∀ s : String, item.objGet? "url" = some (J.str s) → s ≠ "" →
        r.url = J.str s ∧ r.url ≠ J.str "" := by
  have h1 := (extract_eq item r h).1
  refine ⟨h1, fun s hs hne => ?_⟩
  rw [hs] at h1
  refine ⟨h1, ?_⟩
  rw [h1]
  simp [hne]

/-- Witness for the amended C3 at a concrete item with url
`https://a`. -/
theorem c3_witness :
    recUrlA.url = (itemUrlA.objGet? "url").getD (J.str "")
    ∧ ∀ s : String, itemUrlA.objGet? "url" = some (J.str s) → s ≠ "" →
        recUrlA.url = J.str s ∧ recUrlA.url ≠ J.str "" :=
  c3_url_from_item itemUrlA recUrlA (by decide)

/-- C6: price-to-tier classification is total: for every value (any
string, including unparsable text, and any non-string), both
`get_marker_color` and `color_selector` return one of the four tier
colors; every value whose numeric coercion fails — an unparsable string
or a non-string — maps to blue instead of raising. -/
theorem c6_classification_total (v : J) :
    (get_marker_color v = "green" ∨ get_marker_color v = "orange"
      ∨ get_marker_color v = "red" ∨ get_marker_color v = "blue")
    ∧ (color_selector v = "green" ∨ color_selector v = "orange"
      ∨ color_selector v = "red" ∨ color_selector v = "blue")
    ∧ (∀ s, v = J.str s → coercePrice s = none → get_marker_color v = "blue")
    ∧ (∀ s, v = J.str s → pyFloat (pyReplace (pyReplace s "$" "") "," "") = none →
        color_selector v = "blue")
    ∧ ((∀ s, v ≠ J.str s) → get_marker_color v = "blue" ∧ color_selector v = "blue") := by
  refine ⟨?_, ?_, ?_, ?_, ?_⟩
  · cases v <;> simp only [get_marker_color] <;> try tauto
    rename_i s
    cases hc : coercePrice s with
    | none => simp
    | some q =>
      by_cases h1 : q < 800
      · simp [h1]
      · by_cases h2 : q < 1200 <;> simp [h1, h2]
  · cases v <;> simp only [color_selector] <;> try tauto
    rename_i s
    cases hc : pyFloat (pyReplace (pyReplace s "$" "") "," "") with
    | none => simp
    | some f =>
      cases h1 : f.ltc 600 <;> cases h2 : f.gec 600 && f.ltc 1000 <;> simp [h1, h2]
  · rintro s rfl hc
    simp [get_marker_color, hc]
  · rintro s rfl hc
    simp [color_selector, hc]
  · intro hns
    cases v <;> first
      | exact absurd rfl (hns _)
      | exact ⟨rfl, rfl⟩

/-- Witness for C6 at the unparsable string `Please contact` and the
non-string value 5. -/
theorem c6_witness :
    get_marker_color (J.str "Please contact") = "blue"
    ∧ color_selector (J.num 5) = "blue" :=
  ⟨(c6_classification_total (J.str "Please contact")).2.2.1 "Please contact" rfl (by decide),
    ((c6_classification_total (J.num 5)).2.2.2.2 (fun s h => J.noConfusion h)).2⟩

section GeocodeLemmas

theorem geocodePass_fst (arc : String → Option (ℚ × ℚ)) (nom : Option (ℚ × ℚ)) :
    ∀ ls : List Listing,
      (geocodePass arc nom ls).1 = ls.map fun r => (geocodeStep arc nom r).1
  | [] => rfl
  | r :: rs => by
      simp [geocodePass, geocodePass_fst arc nom rs]

theorem samplePassAux_getElem? (k : ℕ) (ls : List Listing) (i : ℕ) :
    (samplePassAux k ls)[i]?
      = ls[i]?.map fun r => if k + i < 20 then sampleStep (k + i) r else r := by
  induction ls generalizing k i with
  | nil => simp [samplePassAux]
  | cons r rs ih =>
    cases i with
    | zero => simp [samplePassAux]
    | succ j =>
      simp only [samplePassAux, List.getElem?_cons_succ]
      rw [ih (k + 1) j]
      have hkj : k + 1 + j = k + (j + 1) := by omega
      rw [hkj]

theorem geocodeStep_of_truthy (arc : String → Option (ℚ × ℚ)) (nom : Option (ℚ × ℚ))
    (r : Listing) (hla : r.latitude.truthy = true) (hlo : r.longitude.truthy = true) :
    geocodeStep arc nom r = (r, false) := by
  unfold geocodeStep
  rw [if_neg]
  simp [hla, hlo]

theorem sampleStep_of_truthy (i : ℕ) (r : Listing)
    (hla : r.latitude.truthy = true) (hlo : r.longitude.truthy = true) :
    sampleStep i r = r := by
  unfold sampleStep
  rw [if_neg]
  simp [hla, hlo]

theorem geocodeStep_of_fail (arc : String → Option (ℚ × ℚ)) (nom : Option (ℚ × ℚ))
    (r : Listing) (hfail : geocode_address arc nom r.address = none) :
    geocodeStep arc nom r = (r, false) := by
  unfold geocodeStep
  split
  · rw [hfail]
  · rfl

theorem geocodeStep_bon (arc : String → Option (ℚ × ℚ)) (nom : Option (ℚ × ℚ))
    (r : Listing) (h : r.latitude = J.null ↔ r.longitude = J.null) :
    ((geocodeStep arc nom r).1.latitude = J.null
      ↔ (geocodeStep arc nom r).1.longitude = J.null) := by
  unfold geocodeStep
  split
  · cases hg : geocode_address arc nom r.address with
    | none => simpa using h
    | some p =>
      obtain ⟨la, lo⟩ := p
      by_cases hlalo : la ≠ 0 ∧ lo ≠ 0
      · simp [hlalo]
      · simpa [hlalo] using h
  · simpa using h

theorem sampleStep_bon (i : ℕ) (r : Listing)
    (h : r.latitude = J.null ↔ r.longitude = J.null) :
    ((sampleStep i r).latitude = J.null ↔ (sampleStep i r).longitude = J.null) := by
  unfold sampleStep
  split
  · simp
  · exact h

theorem samplePassAux_mem {P : Listing → Prop}
    (hP : ∀ i r, P r → P (sampleStep i r)) :
    ∀ (k : ℕ) (ls : List Listing), (∀ r ∈ ls, P r) → ∀ r' ∈ samplePassAux k ls, P r' := by
  intro k ls
  induction ls generalizing k with
  | nil => simp [samplePassAux]
  | cons r rs ih =>
    intro h r' hr'
    simp only [samplePassAux, List.mem_cons] at hr'
    rcases hr' with rfl | hmem
    · by_cases hk : k < 20
      · simpa [hk] using hP k r (h r (by simp))
      · simpa [hk] using h r (by simp)
    · exact ih (k + 1) (fun x hx => h x (by simp [hx])) r' hmem

end GeocodeLemmas

/-- C2 as stated is false: a JSON-LD geo object supplying only a
latitude yields a record with the latitude set and the longitude absent,
and the record survives the geocoding pass partially set (here its
address is the `No address` sentinel, so geocoding skips it, and another
record geocodes successfully so the sample-coordinate branch is not
taken). -/
theorem c2_counterexample :
    (extract_listing_from_json_ld itemGeoPartial).map (fun r => (r.latitude, r.longitude))
      = some (J.num 47, J.null)
    ∧ (geocodePhase arcOnlyA none
          ((extract_listing_from_json_ld itemGeoPartial).toList ++ [recOKGeo])).map
        (fun r => (r.latitude, r.longitude))
      = [(J.num 47, J.null), (J.num 2, J.num 3)] := by
  decide

/-- C2 amended: a record extracted from an item whose geo object does
not supply exactly one coordinate has latitude and longitude both
present or both absent, and the geocoding pass (including the
sample-coordinate branch) preserves that invariant — it always sets both
coordinates or neither.  A geo object supplying exactly one coordinate,
however, yields a partially set record. -/
theorem c2_both_or_neither :
    (∀ item r, extract_listing_from_json_ld item = some r → geoOneSided item = false →
        ((r.latitude = J.null) ↔ (r.longitude = J.null)))
    ∧ (∀ (arc : String → Option (ℚ × ℚ)) (nom : Option (ℚ × ℚ)) (ls : List Listing),
        (∀ r ∈ ls, ((r.latitude = J.null) ↔ (r.longitude = J.null))) →
        ∀ r' ∈ geocodePhase arc nom ls,
          ((r'.latitude = J.null) ↔ (r'.longitude = J.null))) := by
  constructor
  · intro item r h hone
    obtain ⟨-, geo, hgeo, hla, hlo⟩ := extract_eq item r h
    rw [hla, hlo]
    cases hg : item.objGet? "geo" with
    | none =>
      simp only [extractGeo, hg] at hgeo
      injection hgeo with hgeo
      rw [← hgeo]
    | some g =>
      simp only [extractGeo, hg] at hgeo
      simp only [geoOneSided, hg] at hone
      by_cases hobj : g.isObj
      · rw [if_pos hobj] at hgeo
        injection hgeo with hgeo
        rw [← hgeo]
        simpa [bne_eq_false_iff_eq, decide_eq_decide] using hone
      · rw [if_neg hobj] at hgeo
        exact absurd hgeo (by simp)
  · intro arc nom ls hls r' hr'
    unfold geocodePhase at hr'
    have hmap : ∀ x ∈ (geocodePass arc nom ls).1,
        ((x.latitude = J.null) ↔ (x.longitude = J.null)) := by
      rw [geocodePass_fst]
      intro x hx
      obtain ⟨y, hy, rfl⟩ := List.mem_map.mp hx
      exact geocodeStep_bon arc nom y (hls y hy)
    by_cases hz : (geocodePass arc nom ls).2 = 0
    · rw [if_pos hz] at hr'
      exact samplePassAux_mem (fun i x hx => sampleStep_bon i x hx) 0 _ hmap r' hr'
    · rw [if_neg hz] at hr'
      exact hmap r' hr'

/-- Witness for the amended C2: an item supplying both geo coordinates
extracts to a record with both coordinates present. -/
theorem c2_witness :
    ((recGeoBoth.latitude = J.null) ↔ (recGeoBoth.longitude = J.null)) :=
  c2_both_or_neither.1 itemGeoBoth recGeoBoth (by decide) (by decide)

/-- C5 as stated is false: when no record in the whole run geocodes, the
sample-coordinate branch assigns fixed demonstration coordinates to the
first twenty records, so a record whose address fails on both providers
still ends up with coordinates. -/
theorem c5_counterexample :
    geocode_address arcNone none recFailGeo.address = none
    ∧ (geocodePhase arcNone none [recFailGeo]).map (fun r => (r.latitude, r.longitude))
      = [(J.num (47.5669 : ℚ), J.num (-52.7067 : ℚ))] := by
  refine ⟨by decide, ?_⟩
  have hpass : geocodePass arcNone none [recFailGeo] = ([recFailGeo], 0) := by decide
  simp only [geocodePhase, hpass]
  simp [samplePass, samplePassAux, sampleStep, recFailGeo, J.truthy, sample_coords]

/-- C5 amended: provided at least one record of the run geocoded
successfully (so the sample-coordinate branch is skipped), every record
whose address fails to geocode on both providers is returned completely
unchanged — in particular its coordinates stay absent. -/
theorem c5_failed_geocode_untouched (arc : String → Option (ℚ × ℚ))
    (nom : Option (ℚ × ℚ)) (ls : List Listing) (i : ℕ) (h : i < ls.length)
    (hcnt : (geocodePass arc nom ls).2 ≠ 0)
    (hfail : geocode_address arc nom (ls.get ⟨i, h⟩).address = none) :
    (geocodePhase arc nom ls)[i]? = some (ls.get ⟨i, h⟩) := by
  unfold geocodePhase
  rw [if_neg hcnt, geocodePass_fst]
  rw [List.getElem?_map, List.getElem?_eq_getElem h]
  simp only [Option.map_some']
  rw [geocodeStep_of_fail arc nom _ (by simpa using hfail)]
  simp [List.get_eq_getElem]

/-- Witness for the amended C5: with a second record that geocodes, the
failing record is returned unchanged. -/
theorem c5_witness :
    (geocodePhase arcOnlyA none [recFailGeo, recOKGeo])[0]? = some recFailGeo := by
  have h := c5_failed_geocode_untouched arcOnlyA none [recFailGeo, recOKGeo] 0
    (by decide) (by decide) (by decide)
  simpa using h

/-- C9 as stated is false: the re-geocode test uses Python truthiness,
so a record whose latitude is the set-but-falsy value 0 is re-geocoded
and both its coordinates are overwritten. -/
theorem c9_counterexample :
    recZeroLat.latitude ≠ J.null ∧ recZeroLat.longitude ≠ J.null
    ∧ (geocodePhase arcOnlyA none [recZeroLat]).map (fun r => (r.latitude, r.longitude))
      = [(J.num 2, J.num 3)] := by
  decide

/-- C9 amended: a record whose latitude and longitude are both truthy
(present and non-zero, non-empty) is left completely unchanged by the
geocoding section — the resolver is not consulted for it (the result is
independent of the oracles) and the sample-coordinate branch also skips
it. -/
theorem c9_truthy_coords_untouched (arc : String → Option (ℚ × ℚ))
    (nom : Option (ℚ × ℚ)) (ls : List Listing) (i : ℕ) (h : i < ls.length)
    (hla : (ls.get ⟨i, h⟩).latitude.truthy = true)
    (hlo : (ls.get ⟨i, h⟩).longitude.truthy = true) :
    (geocodePhase arc nom ls)[i]? = some (ls.get ⟨i, h⟩) := by
  unfold geocodePhase
  have hpass : (geocodePass arc nom ls).1[i]? = some (ls.get ⟨i, h⟩) := by
    rw [geocodePass_fst, List.getElem?_map, List.getElem?_eq_getElem h]
    simp only [Option.map_some']
    rw [geocodeStep_of_truthy arc nom _ (by simpa using hla) (by simpa using hlo)]
    simp [List.get_eq_getElem]
  by_cases hz : (geocodePass arc nom ls).2 = 0
  · rw [if_pos hz]
    unfold samplePass
    rw [samplePassAux_getElem? 0 _ i, hpass]
    simp only [Option.map_some']
    rw [sampleStep_of_truthy (0 + i) _ (by simpa using hla) (by simpa using hlo)]
    split <;> rfl
  · rw [if_neg hz]
    exact hpass

/-- Witness for the amended C9: a record with truthy coordinates passes
through the whole geocoding section (including the sample branch, since
nothing geocodes here) unchanged. -/
theorem c9_witness :
    (geocodePhase arcOnlyA none [recBothSet])[0]? = some recBothSet := by
  have h := c9_truthy_coords_untouched arcOnlyA none [recBothSet] 0
    (by decide) (by decide) (by decide)
  simpa using h

section CrawlLemmas

theorem crawlLoop_pages (fetch : ℕ → List Listing) :
    ∀ (n s : ℕ), ∃ k ≤ n, (crawlLoop fetch (List.range' s n)).2 = List.range' s k := by
  intro n
  induction n with
  | zero => exact fun s => ⟨0, Nat.le_refl 0, rfl⟩
  | succ m ih =>
    intro s
    rw [List.range'_succ]
    by_cases hemp : (fetch s).isEmpty
    · refine ⟨1, by omega, ?_⟩
      simp [crawlLoop, hemp, List.range'_succ]
    · obtain ⟨k, hk, hkeq⟩ := ih (s + 1)
      refine ⟨k + 1, by omega, ?_⟩
      simp only [crawlLoop, hemp, if_false, List.range'_succ]
      rw [hkeq]
      simp

end CrawlLemmas

/-- C8 as stated is false: a page yielding zero records does not always
stop the crawl — page 1's result is extended without an emptiness check,
so after page 1 yields zero records the driver still fetches page 2. -/
theorem c8_counterexample :
    emptyFetch 1 = [] ∧ (crawlPages emptyFetch 10 5).2 = [1, 2] := by
  decide

/-- C8 amended: for a positive configured maximum and a positive
per-source cap, the driver fetches at most `min maxPages cap` pages
(hence at most `maxPages`), the fetched page numbers are exactly the
consecutive block `1, 2, ..., k`, and no page number is fetched twice;
the driver is a total function, so it always reaches the done state.
Stopping on an empty page applies only to pages from 2 on: page 1 is
always fetched and its emptiness does not prevent the fetch of page 2. -/
theorem c8_pagination_bounds (fetch : ℕ → List Listing) (maxPages cap : ℕ)
    (hmax : 1 ≤ maxPages) (hcap : 1 ≤ cap) :
    ((crawlPages fetch maxPages cap).2).length ≤ min maxPages cap
    ∧ ((crawlPages fetch maxPages cap).2).length ≤ maxPages
    ∧ (crawlPages fetch maxPages cap).2
        = List.range' 1 ((crawlPages fetch maxPages cap).2).length
    ∧ ((crawlPages fetch maxPages cap).2).Nodup := by
  obtain ⟨k, hk, hkeq⟩ := crawlLoop_pages fetch (min maxPages cap - 1) 2
  have hpages : (crawlPages fetch maxPages cap).2 = List.range' 1 (k + 1) := by
    simp only [crawlPages, hkeq]
    rw [List.range'_succ]
  have hlen : ((crawlPages fetch maxPages cap).2).length = k + 1 := by
    rw [hpages, List.length_range']
  have hmin : 1 ≤ min maxPages cap := le_min hmax hcap
  refine ⟨by omega, ?_, ?_, ?_⟩
  · have : min maxPages cap ≤ maxPages := min_le_left _ _
    omega
  · rw [hlen, hpages]
  · rw [hpages]
    exact List.nodup_range' _ _

/-- Witness for the amended C8 at the all-empty fetch oracle with
maximum 3 and cap 5. -/
theorem c8_witness :
    ((crawlPages emptyFetch 3 5).2).length ≤ min 3 5
    ∧ ((crawlPages emptyFetch 3 5).2).length ≤ 3
    ∧ (crawlPages emptyFetch 3 5).2
        = List.range' 1 ((crawlPages emptyFetch 3 5).2).length
    ∧ ((crawlPages emptyFetch 3 5).2).Nodup :=
  c8_pagination_bounds emptyFetch 3 5 (by decide) (by decide)

section SearchPageLemmas

theorem pyInB_objChain_isSome (needle : String) :
    ∀ o : J, isObjChain o = true → ∃ b, pyInB needle o = some b := by
  intro o
  induction o with
  | objNil => exact fun _ => ⟨false, rfl⟩
  | objCons k v tl ihv ihtl =>
    intro hc
    simp only [isObjChain] at hc
    by_cases hk : k = needle
    · exact ⟨true, by simp [pyInB, hk]⟩
    · obtain ⟨b, hb⟩ := ihtl hc
      exact ⟨b, by simp [pyInB, hk, hb]⟩
  | _ => intro hc; simp [isObjChain] at hc

theorem pyInB_objChain_true_get (needle : String) :
    ∀ o : J, isObjChain o = true → pyInB needle o = some true →
      (o.objGet? needle).isSome := by
  intro o
  induction o with
  | objNil => intro _ hb; simp [pyInB] at hb
  | objCons k v tl ihv ihtl =>
    intro hc hb
    simp only [isObjChain] at hc
    by_cases hk : k = needle
    · cases hg : tl.objGet? needle with
      | none => simp [J.objGet?, hg, hk]
      | some w => simp [J.objGet?, hg]
    · rw [pyInB, if_neg hk] at hb
      have := ihtl hc hb
      cases hg : tl.objGet? needle with
      | none => rw [hg] at this; simp at this
      | some w => simp [J.objGet?, hg]
  | _ => intro hc; simp [isObjChain] at hc

theorem processItem_of_objChain (it : J) (hc : isObjChain it = true) :
    ∃ ol, processItem it = .ok ol := by
  obtain ⟨b, hb⟩ := pyInB_objChain_isSome "item" it hc
  cases b with
  | false => exact ⟨none, by simp [processItem, hb]⟩
  | true =>
    have hg := pyInB_objChain_true_get "item" it hc hb
    cases hgg : it.objGet? "item" with
    | none => rw [hgg] at hg; simp at hg
    | some v =>
      exact ⟨extract_listing_from_json_ld v, by simp [processItem, hb, hgg]⟩

theorem runItems_snd_none :
    ∀ items : List J, (∀ it ∈ items, isObjChain it = true) →
      (runItems items).2 = none := by
  intro items
  induction items with
  | nil => simp [runItems]
  | cons it rest ih =>
    intro h
    obtain ⟨ol, hol⟩ := processItem_of_objChain it (h it (by simp))
    have hrest := ih fun x hx => h x (List.mem_cons_of_mem _ hx)
    cases ol with
    | none => simp [runItems, hol, hrest]
    | some l => simp [runItems, hol, hrest]

theorem pyIter_of_itemsAllObj :
    ∀ t : J, itemsAllObj t = true →
      ∃ items, pyIter t = some items ∧ ∀ it ∈ items, isObjChain it = true := by
  intro t
  induction t with
  | arrNil => exact fun _ => ⟨[], rfl, by simp⟩
  | arrCons h tl ihh ihtl =>
    intro hall
    simp only [itemsAllObj, Bool.and_eq_true] at hall
    obtain ⟨items, hit, hmem⟩ := ihtl hall.2
    refine ⟨h :: items, by simp [pyIter, hit], ?_⟩
    intro it hin
    rcases List.mem_cons.mp hin with rfl | hin'
    · exact hall.1
    · exact hmem it hin'
  | _ => intro hall; simp [itemsAllObj] at hall

theorem processBlock_no_typeError (b : ScriptBlock) (hb : blockSafe b = true) :
    (processBlock b).2 ≠ some PyExc.typeError := by
  cases b with
  | noString => simp [blockSafe] at hb
  | unparsable => simp [processBlock]
  | parsed v =>
    simp only [blockSafe] at hb
    simp only [processBlock]
    by_cases hcond : v.isObj && (v.objGet? "itemListElement").isSome
    · rw [if_pos hcond] at hb ⊢
      obtain ⟨items, hit, hmem⟩ := pyIter_of_itemsAllObj _ hb
      rw [hit]
      rw [runItems_snd_none items hmem]
      simp
    · rw [if_neg hcond]
      simp

end SearchPageLemmas

/-- C4 as stated is false: a script block whose content fails to parse
because the tag has no string content at all (json.loads receives None)
raises a TypeError that the `except (json.JSONDecodeError, KeyError)`
does not catch, so the whole page extraction aborts and the well-formed
sibling block's record — recovered when the bad block is absent — is
lost. -/
theorem c4_counterexample :
    extract_listings_from_search_page [ScriptBlock.noString, goodBlock]
      = .error PyExc.typeError
    ∧ extract_listings_from_search_page [goodBlock] = .ok [goodRec] :=
  ⟨rfl, rfl⟩

/-- C4 amended: blocks rejected by json.loads with a JSONDecodeError
(non-empty unparsable text) are skipped individually, and every sibling
block that parses to either a non-item-list value or a dict whose
`itemListElement` is an array of objects contributes exactly its own
records; but a script tag without string content, or a parsed block
whose `itemListElement` is not iterable or has elements that raise on
`'item' in item` / `item['item']`, raises an uncaught TypeError aborting
the whole page. -/
theorem c4_bad_blocks_skipped (bs : List ScriptBlock)
    (h : ∀ b ∈ bs, blockSafe b = true) :
    extract_listings_from_search_page bs
      = .ok ((bs.map fun b => (processBlock b).1).flatten) := by
  induction bs with
  | nil => rfl
  | cons b rest ih =>
    have hb := h b (by simp)
    have hrest := ih fun x hx => h x (List.mem_cons_of_mem _ hx)
    have hne := processBlock_no_typeError b hb
    rcases hpb : processBlock b with ⟨ls, e⟩
    rw [hpb] at hne
    simp only at hne
    simp only [extract_listings_from_search_page, hpb, List.map_cons]
    cases e with
    | none => simp [hrest]
    | some exc =>
      cases exc with
      | typeError => exact absurd rfl hne
      | keyError => simp [hrest]
      | jsonDecodeError => simp [hrest]

/-- Witness for the amended C4: an unparsable block next to a
well-formed block is skipped and the sibling's records survive. -/
theorem c4_witness :
    extract_listings_from_search_page [ScriptBlock.unparsable, goodBlock]
      = .ok (([ScriptBlock.unparsable, goodBlock].map fun b => (processBlock b).1).flatten) :=
  c4_bad_blocks_skipped [ScriptBlock.unparsable, goodBlock] (by decide)

section PriceLemmas

theorem splitDots_ne_nil : ∀ l : List Char, splitDots l ≠ []
  | [] => by simp [splitDots]
  | c :: cs => by
      by_cases h : c = '.'
      · simp [splitDots, h]
      · simp only [splitDots, h, if_false]
        cases hs : splitDots cs with
        | nil => simp
        | cons p ps => simp

theorem splitDots_no_dot : ∀ l p : List Char, p ∈ splitDots l → '.' ∉ p := by
  intro l
  induction l with
  | nil =>
    intro p hp
    simp [splitDots] at hp
    simp [hp]
  | cons c cs ih =>
    intro p hp
    by_cases h : c = '.'
    · rw [splitDots, if_pos h] at hp
      rcases List.mem_cons.mp hp with rfl | hp'
      · simp
      · exact ih p hp'
    · rw [splitDots, if_neg h] at hp
      cases hs : splitDots cs with
      | nil => exact absurd hs (splitDots_ne_nil cs)
      | cons p0 ps =>
        rw [hs] at hp
        rcases List.mem_cons.mp hp with rfl | hp'
        · intro hmem
          rcases List.mem_cons.mp hmem with hdot | hmem'
          · exact h hdot.symm
          · exact ih p0 (by rw [hs]; exact List.mem_cons_self _ _) hmem'
        · exact ih p (by rw [hs]; exact List.mem_cons_of_mem _ hp')

theorem splitDots_subset : ∀ l p : List Char, p ∈ splitDots l → ∀ c ∈ p, c ∈ l := by
  intro l
  induction l with
  | nil =>
    intro p hp
    simp [splitDots] at hp
    simp [hp]
  | cons c cs ih =>
    intro p hp x hx
    by_cases h : c = '.'
    · rw [splitDots, if_pos h] at hp
      rcases List.mem_cons.mp hp with rfl | hp'
      · simp at hx
      · exact List.mem_cons_of_mem _ (ih p hp' x hx)
    · rw [splitDots, if_neg h] at hp
      cases hs : splitDots cs with
      | nil => exact absurd hs (splitDots_ne_nil cs)
      | cons p0 ps =>
        rw [hs] at hp
        rcases List.mem_cons.mp hp with rfl | hp'
        · rcases List.mem_cons.mp hx with rfl | hx'
          · exact List.mem_cons_self _ _
          · exact List.mem_cons_of_mem _
              (ih p0 (by rw [hs]; exact List.mem_cons_self _ _) x hx')
        · exact List.mem_cons_of_mem _
            (ih p (by rw [hs]; exact List.mem_cons_of_mem _ hp') x hx)

theorem splitDots_of_no_dot : ∀ a : List Char, '.' ∉ a → splitDots a = [a]
  | [], _ => rfl
  | c :: cs, h => by
      have hc : ¬ c = '.' := fun e => h (by rw [← e]; exact List.mem_cons_self _ _)
      have hcs := splitDots_of_no_dot cs fun m => h (List.mem_cons_of_mem _ m)
      simp [splitDots, hc, hcs]

theorem splitDots_append : ∀ a b : List Char, '.' ∉ a →
    splitDots (a ++ '.' :: b) = a :: splitDots b
  | [], b, _ => by simp [splitDots]
  | c :: cs, b, h => by
      have hc : ¬ c = '.' := fun e => h (by rw [← e]; exact List.mem_cons_self _ _)
      have ih := splitDots_append cs b fun m => h (List.mem_cons_of_mem _ m)
      have hstep : splitDots (c :: (cs ++ '.' :: b))
          = match splitDots (cs ++ '.' :: b) with
            | [] => [[c]]
            | p :: ps => (c :: p) :: ps := by
        simp only [splitDots, hc, if_false]
      rw [List.cons_append, hstep, ih]

theorem isPriceChar_of_not_dot {c : Char} (hp : isPriceChar c = true) (hd : c ≠ '.') :
    c.isDigit = true := by
  unfold isPriceChar at hp
  have hp2 : c.isDigit = true ∨ decide (c = '.') = true := by simpa using hp
  rcases hp2 with h | h
  · exact h
  · exact absurd (by simpa using h) hd

theorem parseDigitsDot_single (l a : List Char) (h : splitDots l = [a]) :
    parseDigitsDot l = if a.isEmpty then none else some (digitsVal a : ℚ) := by
  unfold parseDigitsDot
  rw [h]

theorem parseDigitsDot_pair (l a b : List Char) (h : splitDots l = [a, b]) :
    parseDigitsDot l
      = if a.isEmpty && b.isEmpty then none
        else some ((digitsVal a : ℚ) + (digitsVal b : ℚ) / (10 : ℚ) ^ b.length) := by
  unfold parseDigitsDot
  rw [h]

end PriceLemmas

/-- C7: price coercion is idempotent — whenever the coercion
`float(re.sub(r'[^\d.]', '', price))` succeeds with the numeric value
`q`, that value has a decimal rendering (a digit string with a decimal
point) which the coercion maps back to exactly `q`; so re-coercing a
rendered, already-numeric price yields the same value.  Python floats
are modelled as exact rationals, so the e-notation `repr` used by CPython
for magnitudes of 10^16 and up is out of scope. -/
theorem c7_coercion_idempotent (s : String) (q : ℚ) (h : coercePrice s = some q) :
    ∃ d : Dec, d.Wf ∧ d.val = q ∧ coercePrice d.render = some q := by
  have hl : ∀ c ∈ stripNonNumeric s, isPriceChar c = true := by
    intro c hc
    exact (List.mem_filter.mp hc).2
  have h0 : digitsVal ([] : List Char) = 0 := rfl
  unfold coercePrice parseDigitsDot at h
  split at h
  · rename_i a heq
    have hamem : a ∈ splitDots (stripNonNumeric s) := by rw [heq]; simp
    have hadot : ('.' : Char) ∉ a := splitDots_no_dot _ a hamem
    have hadig : ∀ c ∈ a, c.isDigit = true := fun c hc =>
      isPriceChar_of_not_dot (hl c (splitDots_subset _ a hamem c hc))
        (fun e => hadot (e ▸ hc))
    by_cases hae : a.isEmpty
    · rw [if_pos hae] at h
      exact absurd h (by simp)
    · rw [if_neg hae] at h
      injection h with h
      have hstrip : stripNonNumeric (Dec.render ⟨a, []⟩) = a ++ '.' :: [] := by
        unfold stripNonNumeric
        have hdata : (Dec.render ⟨a, []⟩).data = a ++ '.' :: [] := rfl
        rw [hdata]
        refine List.filter_eq_self.mpr fun c hc => ?_
        rcases List.mem_append.mp hc with hca | hcd
        · exact hl c (splitDots_subset _ a hamem c hca)
        · simp at hcd
          simp [hcd, isPriceChar]
      refine ⟨⟨a, []⟩, ⟨?_, by simp, ?_⟩, ?_, ?_⟩
      · exact List.all_eq_true.mpr fun c hc => hadig c hc
      · exact Or.inl (by simpa [List.isEmpty_iff] using hae)
      · rw [Dec.val, ← h]
        simp [h0]
      · unfold coercePrice
        rw [hstrip, parseDigitsDot_pair _ a []
          (by rw [splitDots_append a [] hadot]; rfl)]
        rw [if_neg (by simp [hae]), ← h]
        simp [h0]
  · rename_i a b heq
    have hamem : a ∈ splitDots (stripNonNumeric s) := by rw [heq]; simp
    have hbmem : b ∈ splitDots (stripNonNumeric s) := by rw [heq]; simp
    have hadot : ('.' : Char) ∉ a := splitDots_no_dot _ a hamem
    have hbdot : ('.' : Char) ∉ b := splitDots_no_dot _ b hbmem
    have hadig : ∀ c ∈ a, c.isDigit = true := fun c hc =>
      isPriceChar_of_not_dot (hl c (splitDots_subset _ a hamem c hc))
        (fun e => hadot (e ▸ hc))
    have hbdig : ∀ c ∈ b, c.isDigit = true := fun c hc =>
      isPriceChar_of_not_dot (hl c (splitDots_subset _ b hbmem c hc))
        (fun e => hbdot (e ▸ hc))
    by_cases hab : a.isEmpty && b.isEmpty
    · rw [if_pos hab] at h
      exact absurd h (by simp)
    · rw [if_neg hab] at h
      injection h with h
      have hstrip : stripNonNumeric (Dec.render ⟨a, b⟩) = a ++ '.' :: b := by
        unfold stripNonNumeric
        have hdata : (Dec.render ⟨a, b⟩).data = a ++ '.' :: b := rfl
        rw [hdata]
        refine List.filter_eq_self.mpr fun c hc => ?_
        rcases List.mem_append.mp hc with hca | hcd
        · exact hl c (splitDots_subset _ a hamem c hca)
        · rcases List.mem_cons.mp hcd with rfl | hcb
          · simp [isPriceChar]
          · exact hl c (splitDots_subset _ b hbmem c hcb)
      refine ⟨⟨a, b⟩, ⟨?_, ?_, ?_⟩, ?_, ?_⟩
      · exact List.all_eq_true.mpr fun c hc => hadig c hc
      · exact List.all_eq_true.mpr fun c hc => hbdig c hc
      · by_cases hae : a = []
        · refine Or.inr fun hbe => hab ?_
          have hb2 : b = [] := hbe
          rw [hae, hb2]
          simp
        · exact Or.inl fun hx => hae hx
      · rw [Dec.val, ← h]
      · unfold coercePrice
        rw [hstrip, parseDigitsDot_pair _ a b
          (by rw [splitDots_append a b hadot, splitDots_of_no_dot b hbdot])]
        rw [if_neg hab, ← h]
  · exact absurd h (by simp)

/-- Witness for C7 at the price string `$950`. -/
theorem c7_witness :
    ∃ d : Dec, d.Wf ∧ d.val = 950 ∧ coercePrice d.render = some 950 :=
  c7_coercion_idempotent "$950" 950 (by decide)

end LocalRental
